import Mathlib

set_option maxHeartbeats 1000000

/-!
Verification development for the anything-sh declarative CLI generator.

The JavaScript source (final iteration of `src/index.js`) is shallowly
embedded below.  JavaScript objects parsed from JSON are modelled by the
inductive type `JSVal`; association lists `List (String × String)` model
plain string-valued objects (config `variables`, `headers`, CLI arguments
and the session store), whose keys are unique in every configuration the
program reads.  File-system state for the session store is modelled as
`Option String` (the file's text, or `none` when the file does not exist),
and the external HTTP transport and shell are modelled as explicit
parameters carrying their outcome.  Thrown JavaScript exceptions are
modelled with `Except`.
-/

/-- JSON-like runtime values, as produced by parsing an HTTP response body.
`vundef` is JavaScript's `undefined`, `vnull` is JSON `null`.  Sequences are
not needed by any property below and are omitted from the value universe. -/
inductive JSVal where
  | vundef : JSVal
  | vnull : JSVal
  | vbool : Bool → JSVal
  | vnum : Int → JSVal
  | vstr : String → JSVal
  | vobj : List (String × JSVal) → JSVal

/-- Property lookup on a JavaScript object: first entry with the given key,
`undefined` when absent (object keys are unique, so first = only). -/
def jsLookup : List (String × JSVal) → String → JSVal
  | [], _ => JSVal.vundef
  | p :: rest, key => if p.1 = key then p.2 else jsLookup rest key

/-- JavaScript bracket access `v[key]`: throws a `TypeError` (modelled as
`Except.error ()`) on `undefined` and `null`, returns the field of an
object, and `undefined` on every other primitive. -/
def jsIndex : JSVal → String → Except Unit JSVal
  | JSVal.vundef, _ => Except.error ()
  | JSVal.vnull, _ => Except.error ()
  | JSVal.vobj fields, key => Except.ok (jsLookup fields key)
  | _, _ => Except.ok JSVal.vundef

/-- JavaScript truthiness of a value. -/
def jsTruthy : JSVal → Bool
  | JSVal.vundef => false
  | JSVal.vnull => false
  | JSVal.vbool b => b
  | JSVal.vnum n => n != 0
  | JSVal.vstr s => !s.isEmpty
  | JSVal.vobj _ => true

/-- Test for the `undefined` value. -/
def JSVal.isUndef : JSVal → Bool
  | JSVal.vundef => true
  | _ => false

/-- JavaScript string coercion of a value (as applied to the return value of
a `String.prototype.replace` callback). -/
def jsToString : JSVal → String
  | JSVal.vundef => "undefined"
  | JSVal.vnull => "null"
  | JSVal.vbool b => if b then "true" else "false"
  | JSVal.vnum n => toString n
  | JSVal.vstr s => s
  | JSVal.vobj _ => "[object Object]"

/-- Model of the global hyphen-removing `part.replace` call in
`getNestedProperty`: remove every hyphen. -/
def stripHyphens (s : String) : String :=
  String.mk (s.data.filter (fun c => c != '-'))

/-- Accumulator-passing splitter mirroring JavaScript `String.split` with a
single-character separator (empty pieces are kept, `""` splits to `[""]`). -/
def splitChAux (sep : Char) : List Char → List Char → List String
  | acc, [] => [String.mk acc.reverse]
  | acc, c :: rest =>
    if c = sep then String.mk acc.reverse :: splitChAux sep [] rest
    else splitChAux sep (c :: acc) rest

/-- JavaScript `s.split(sep)` for a one-character separator. -/
def splitCh (sep : Char) (s : String) : List String :=
  splitChAux sep [] s.data

/-- One level of the `reduce` step inside `getNestedProperty` (src/index.js
lines 180-184):
`acc && acc[part] !== undefined ? acc[part] : acc[part with hyphens removed]`.
Note that the fallback read in the else-branch is not guarded by `acc &&`,
so it throws when `acc` is `undefined` or `null`. -/
def nestedStep (acc : JSVal) (part : String) : Except Unit JSVal :=
  if jsTruthy acc then
    match jsIndex acc part with
    | Except.error e => Except.error e
    | Except.ok v =>
      if v.isUndef then jsIndex acc (stripHyphens part) else Except.ok v
  else jsIndex acc (stripHyphens part)

/-- Left fold of `nestedStep` over the path segments, propagating a thrown
exception exactly as JavaScript `reduce` would. -/
def nestedFold : JSVal → List String → Except Unit JSVal
  | acc, [] => Except.ok acc
  | acc, p :: rest =>
    match nestedStep acc p with
    | Except.error e => Except.error e
    | Except.ok acc2 => nestedFold acc2 rest

/-- Model of `getNestedProperty(obj, path)` (src/index.js lines 180-184):
`path.split('.').reduce((acc, part) => ..., obj)`. -/
def getNestedProperty (obj : JSVal) (path : String) : Except Unit JSVal :=
  nestedFold obj (splitCh '.' path)

/-- Character class of the identifier part of the `/\$([a-zA-Z_]+)/g`
placeholder regex: ASCII letters and underscore. -/
def isIdentChar (c : Char) : Bool := c.isAlpha || c = '_'

/-- First value bound to a key in an association list (JavaScript object
member lookup; keys are unique). -/
def lookupVar (l : List (String × String)) (n : String) : Option String :=
  (l.find? (fun p => p.1 = n)).map (fun p => p.2)

/-- Fuel-indexed scanner for `str.replace(/\$([a-zA-Z_]+)/g, (_, name) =>
variables[name] || '')`.  At a `$` followed by at least one identifier
character the maximal identifier run is replaced by the bound value (empty
string when the variable is absent or bound to the empty string); any other
character is copied.  The fuel is at least the length of the list at every
call, so the `0` fallback arm is never reached from `replaceVariables`. -/
def replaceGo (vars : List (String × String)) : Nat → List Char → List Char
  | _, [] => []
  | 0, l => l
  | fuel + 1, c :: rest =>
    if c = '$' then
      if (rest.takeWhile isIdentChar).isEmpty then '$' :: replaceGo vars fuel rest
      else
        ((lookupVar vars (String.mk (rest.takeWhile isIdentChar))).getD "").data ++
          replaceGo vars fuel (rest.dropWhile isIdentChar)
    else c :: replaceGo vars fuel rest

/-- Model of `replaceVariables(str, variables)` (src/index.js lines
187-189). -/
def replaceVariables (str : String) (vars : List (String × String)) : String :=
  String.mk (replaceGo vars str.data.length str.data)

/-- Model of `formatResponseValue(value)` (src/index.js lines 192-197):
strings longer than 50 characters are truncated with an ellipsis marker,
`undefined` becomes the literal text `"undefined"`, everything else is
returned unchanged. -/
def formatResponseValue (value : JSVal) : JSVal :=
  match value with
  | JSVal.vstr s => JSVal.vstr (if s.length > 50 then s.take 50 ++ "..." else s)
  | JSVal.vundef => JSVal.vstr "undefined"
  | v => v

/-- Character class `[a-zA-Z0-9_.-]` of the `$data.` extraction regex. -/
def isDataPathChar (c : Char) : Bool :=
  c.isAlphanum || c = '_' || c = '.' || c = '-'

/-- Coercion applied to an extracted value in a `response` template:
`formatResponseValue(value)` followed by the string coercion of the
`replace` callback result. -/
def fmtConv (v : JSVal) : String := jsToString (formatResponseValue v)

/-- Coercion applied to an extracted value in a `set` template:
`value || ''` followed by string coercion — the raw (untruncated,
unformatted) value, or the empty string for a falsy value. -/
def rawConv (v : JSVal) : String := if jsTruthy v then jsToString v else ""

/-- Fuel-indexed scanner for
`tmpl.replace(/\$data\.[a-zA-Z0-9_.-]+/g, (match) => ...)` where the
callback strips the `$data.` prefix, calls `getNestedProperty` on the
response data (which may throw, modelled by `Except.error`), and converts
the value with `conv`. -/
def replaceDataTokens (conv : JSVal → String) (data : JSVal) :
    Nat → List Char → Except Unit (List Char)
  | _, [] => Except.ok []
  | 0, l => Except.ok l
  | fuel + 1, '$' :: 'd' :: 'a' :: 't' :: 'a' :: '.' :: rest =>
    if (rest.takeWhile isDataPathChar).isEmpty then
      (replaceDataTokens conv data fuel ('d' :: 'a' :: 't' :: 'a' :: '.' :: rest)).map
        (fun t => '$' :: t)
    else
      match getNestedProperty data (String.mk (rest.takeWhile isDataPathChar)) with
      | Except.error e => Except.error e
      | Except.ok v =>
        (replaceDataTokens conv data fuel (rest.dropWhile isDataPathChar)).map
          (fun t => (conv v).data ++ t)
  | fuel + 1, c :: rest =>
    (replaceDataTokens conv data fuel rest).map (fun t => c :: t)

/-- Formatted `$data.` substitution used for `response` templates
(src/index.js lines 223-228). -/
def replaceDataFmt (data : JSVal) (tmpl : String) : Except Unit String :=
  (replaceDataTokens fmtConv data tmpl.data.length tmpl.data).map String.mk

/-- Raw `$data.` substitution used for `set` templates (src/index.js lines
235-239). -/
def replaceDataRaw (data : JSVal) (tmpl : String) : Except Unit String :=
  (replaceDataTokens rawConv data tmpl.data.length tmpl.data).map String.mk

/-- Opening brace character of JSON object syntax. -/
def lbrace : Char := Char.ofNat 123

/-- Closing brace character of JSON object syntax. -/
def rbrace : Char := Char.ofNat 125

/-- Lowercase hexadecimal digit for a value below 16. -/
def hexDigit (n : Nat) : Char :=
  if n < 10 then Char.ofNat (48 + n) else Char.ofNat (87 + n)

/-- JSON string escaping of one character, as performed by
`JSON.stringify`: quote, backslash and the named control escapes get a
two-character escape, the remaining control characters a `\u00XX` escape,
and every other character stands for itself. -/
def escChar (c : Char) : List Char :=
  if c = '"' then ['\\', '"']
  else if c = '\\' then ['\\', '\\']
  else if c.toNat = 8 then ['\\', 'b']
  else if c.toNat = 12 then ['\\', 'f']
  else if c = '\n' then ['\\', 'n']
  else if c.toNat = 13 then ['\\', 'r']
  else if c = '\t' then ['\\', 't']
  else if c.toNat < 32 then
    ['\\', 'u', '0', '0', hexDigit (c.toNat / 16), hexDigit (c.toNat % 16)]
  else [c]

/-- JSON escaping of a whole string (without the surrounding quotes). -/
def escString (s : String) : List Char := (s.data.map escChar).flatten

/-- JSON string literal for `s`: surrounding quotes plus escaped body. -/
def quoteStr (s : String) : List Char := '"' :: (escString s ++ ['"'])

/-- One `"key": "value"` line of the session-store file, indented by the
two spaces that `JSON.stringify(config, null, 2)` produces. -/
def entryChars (p : String × String) : List Char :=
  ' ' :: ' ' :: (quoteStr p.1 ++ ':' :: ' ' :: quoteStr p.2)

/-- Entry lines joined by `,\n`, as in `JSON.stringify(config, null, 2)`. -/
def joinEntries : List (String × String) → List Char
  | [] => []
  | [p] => entryChars p
  | p :: q :: rest => entryChars p ++ ',' :: '\n' :: joinEntries (q :: rest)

/-- Model of `JSON.stringify(config, null, 2)` on a flat string-to-string
mapping: the exact text `saveConfigStore` writes to the store file. -/
def stringifyStore (m : List (String × String)) : String :=
  match m with
  | [] => String.mk [lbrace, rbrace]
  | _ => String.mk (lbrace :: '\n' :: (joinEntries m ++ ['\n', rbrace]))

/-- JSON insignificant whitespace. -/
def isWs (c : Char) : Bool := c = ' ' || c = '\n' || c = '\t' || c = Char.ofNat 13

/-- Skip insignificant whitespace. -/
def skipWs (l : List Char) : List Char := l.dropWhile isWs

/-- Numeric value of a hexadecimal digit character. -/
def hexVal (c : Char) : Option Nat :=
  if 48 ≤ c.toNat ∧ c.toNat ≤ 57 then some (c.toNat - 48)
  else if 97 ≤ c.toNat ∧ c.toNat ≤ 102 then some (c.toNat - 87)
  else if 65 ≤ c.toNat ∧ c.toNat ≤ 70 then some (c.toNat - 55)
  else none

/-- Prepend a character to the first component of a scanner result. -/
def consFst (x : Char) (p : List Char × List Char) : List Char × List Char :=
  (x :: p.1, p.2)

/-- Decoding of one JSON string escape sequence (the characters after a
backslash): the named escapes, a solidus, or a `\\uXXXX` hexadecimal
escape; `none` models the `SyntaxError` thrown by `JSON.parse` on a
malformed escape. -/
def decodeEscape : List Char → Option (Char × List Char)
  | [] => none
  | e :: rest =>
    if e = '"' then some ('"', rest)
    else if e = '\\' then some ('\\', rest)
    else if e = '/' then some ('/', rest)
    else if e = 'b' then some (Char.ofNat 8, rest)
    else if e = 'f' then some (Char.ofNat 12, rest)
    else if e = 'n' then some ('\n', rest)
    else if e = 'r' then some (Char.ofNat 13, rest)
    else if e = 't' then some ('\t', rest)
    else if e = 'u' then
      match rest with
      | h1 :: h2 :: h3 :: h4 :: rest3 =>
        match hexVal h1, hexVal h2, hexVal h3, hexVal h4 with
        | some a, some b, some c2, some d =>
          some (Char.ofNat (((a * 16 + b) * 16 + c2) * 16 + d), rest3)
        | _, _, _, _ => none
      | _ => none
    else none

/-- Body of a JSON string literal, scanned after the opening quote up to
and including the closing quote (models the string grammar accepted by
`JSON.parse`): escapes are decoded via `decodeEscape`, a raw control
character rejects the input.  Fuel is at least the length of the list at
every call from `parseEntries`/`parseStore`. -/
def parseStrBody : Nat → List Char → Option (List Char × List Char)
  | 0, _ => none
  | _ + 1, [] => none
  | fuel + 1, c :: rest =>
    if c = '"' then some ([], rest)
    else if c = '\\' then
      match decodeEscape rest with
      | some (dec, rest2) => (parseStrBody fuel rest2).map (consFst dec)
      | none => none
    else if c.toNat < 32 then none
    else (parseStrBody fuel rest).map (consFst c)

/-- One `"key": "value"` member of a flat JSON object, scanned from the
opening quote of the key, with whitespace allowed around the colon as
`JSON.parse` does. -/
def parseKV (l : List Char) : Option ((String × String) × List Char) :=
  match l with
  | '"' :: rest =>
    match parseStrBody rest.length rest with
    | none => none
    | some (key, rest2) =>
      match skipWs rest2 with
      | ':' :: rest3 =>
        match skipWs rest3 with
        | '"' :: rest4 =>
          match parseStrBody rest4.length rest4 with
          | none => none
          | some (val, rest5) => some ((String.mk key, String.mk val), rest5)
        | _ => none
      | _ => none
  | _ => none

/-- Sequence of `"key": "value"` members of a flat JSON object, scanned
from the opening quote of the first key up to and including the closing
brace of the object.  One unit of fuel is spent per member. -/
def parseEntries : Nat → List Char → Option (List (String × String) × List Char)
  | 0, _ => none
  | fuel + 1, l =>
    match parseKV l with
    | none => none
    | some (kv, rest5) =>
      match skipWs rest5 with
      | ',' :: rest6 =>
        match parseEntries fuel (skipWs rest6) with
        | some (entries, rest7) => some (kv :: entries, rest7)
        | none => none
      | c :: rest6 => if c = rbrace then some ([kv], rest6) else none
      | [] => none

/-- Parser for a session-store document: a single flat JSON object whose
values are strings, surrounded by optional whitespace.  This models the
external `JSON.parse` on the store-file fragment of JSON; `none` stands
for a thrown `SyntaxError`. -/
def parseStore (s : String) : Option (List (String × String)) :=
  match skipWs s.data with
  | c :: rest =>
    if c = lbrace then
      match skipWs rest with
      | c2 :: rest2 =>
        if c2 = rbrace then
          if (skipWs rest2).isEmpty then some [] else none
        else
          match parseEntries (c2 :: rest2).length (c2 :: rest2) with
          | some (entries, rest3) =>
            if (skipWs rest3).isEmpty then some entries else none
          | none => none
      | [] => none
    else none
  | [] => none

/-- Model of `loadConfigStore()` (src/index.js lines 166-172): when the
store file does not exist the empty mapping is returned; otherwise the
file's text is parsed as JSON (`none` models the uncaught exception thrown
on a corrupt file). -/
def loadConfigStore (file : Option String) : Option (List (String × String)) :=
  match file with
  | none => some []
  | some s => parseStore s

/-- Model of `saveConfigStore(config)` (src/index.js lines 175-177): the
store file is overwritten in full with `JSON.stringify(config, null, 2)`;
the previous file state does not influence the result. -/
def saveConfigStore (config : List (String × String)) : Option String :=
  some (stringifyStore config)

/-- JavaScript object member assignment `obj[k] = v` on an association
list with unique keys: update the binding in place when the key exists,
append the new binding otherwise (insertion order is preserved, as for a
JavaScript object). -/
def objSet (l : List (String × String)) (k v : String) : List (String × String) :=
  if l.any (fun p => p.1 = k) then l.map (fun p => if p.1 = k then (k, v) else p)
  else l ++ [(k, v)]

/-- JavaScript object spread of two objects with unique keys: keys of `a`
keep their position, keys of `b` override shared keys and append new ones,
exactly the member set and order of a spread object literal of `a` then
`b`. -/
def objSpread (a b : List (String × String)) : List (String × String) :=
  b.foldl (fun acc p => objSet acc p.1 p.2) a

/-- Command definition read from the configuration document: the optional
`endpoint`, `body`, `response`, `set` and `execute` fields of one entry of
the YAML `commands` mapping.  The `body` template object is carried in its
serialized text form, since the source only manipulates it as
`JSON.stringify(command.body)` before substitution; the final `JSON.parse`
into the transport payload belongs to the external HTTP client boundary. -/
structure CommandDef where
  endpoint : Option String := none
  body : Option String := none
  response : Option String := none
  set : Option (List (String × String)) := none
  execute : Option String := none
deriving DecidableEq

/-- The HTTP request handed to the external transport (the argument object
of the `axios({...})` call): method and URL from splitting the resolved
endpoint on spaces, resolved headers, and the resolved body text. -/
structure HttpRequest where
  method : String
  url : Option String
  reqHeaders : List (String × String)
  reqBody : Option String
deriving DecidableEq

/-- Observable outcome of one `makeRequest` invocation: the session-store
file state afterwards, the `console.log` lines, the `console.error` lines,
the HTTP request issued (if any), and the string handed to the shell via
`exec` (if any). -/
structure InvocationResult where
  newStore : Option String
  printed : List String
  errors : List String
  request : Option HttpRequest
  shellRun : Option String
deriving DecidableEq

/-- The `forEach` loop over the `set` entries (src/index.js lines 233-241):
each entry's template has its `$data.` tokens replaced by the raw extracted
value, is then resolved against the current scope spread with the
invocation arguments, and is written into the scope before the next entry
is processed.  A thrown extraction error aborts the loop. -/
def runSets : List (String × String) → JSVal → List (String × String) →
    List (String × String) → Except Unit (List (String × String))
  | [], _, vars, _ => Except.ok vars
  | (key, tmpl) :: rest, data, vars, args =>
    match replaceDataRaw data tmpl with
    | Except.error e => Except.error e
    | Except.ok setValue =>
      runSets rest data (objSet vars key (replaceVariables setValue (objSpread vars args))) args

/-- The `response` branch of the success handler (src/index.js lines
223-231): `$data.` tokens are substituted with formatted values, the result
is resolved against the scope spread with the invocation arguments, and
printed.  An extraction throw propagates to the `catch`. -/
def handleResponse (cmd : CommandDef) (data : JSVal)
    (vars args : List (String × String)) : Except Unit (List String) :=
  match cmd.response with
  | none => Except.ok []
  | some rt =>
    match replaceDataFmt data rt with
    | Except.error e => Except.error e
    | Except.ok txt => Except.ok [replaceVariables txt (objSpread vars args)]

/-- The `set` branch of the success handler (src/index.js lines 233-245):
when a `set` clause is present its entries are folded over the scope and
the entire updated scope is handed to `saveConfigStore`, returning the new
file state together with the confirmation log line; without a `set` clause
the file state is untouched. -/
def handleSet (cmd : CommandDef) (data : JSVal)
    (vars args : List (String × String)) (store : Option String) :
    Except Unit (Option String × List String) :=
  match cmd.set with
  | none => Except.ok (store, [])
  | some entries =>
    match runSets entries data vars args with
    | Except.error e => Except.error e
    | Except.ok vars2 =>
      Except.ok (saveConfigStore vars2, ["Updated configuration saved:"])

/-- Model of JavaScript `String.prototype.trim`: whitespace removed from
both ends. -/
def jsTrim (s : String) : String :=
  String.mk (((s.data.dropWhile Char.isWhitespace).reverse.dropWhile Char.isWhitespace).reverse)

/-- The `console.log` line produced by the `exec` callback (src/index.js
lines 254-262): the trimmed standard output on success, nothing on failure
or when no `execute` field is present. -/
def execPrinted (cmd : CommandDef) (shellResult : Except String String) : List String :=
  match cmd.execute, shellResult with
  | some _, Except.ok stdout => [jsTrim stdout]
  | _, _ => []

/-- The `console.error` line produced by the `exec` callback: the error
stream on failure, nothing on success or without an `execute` field. -/
def execErrors (cmd : CommandDef) (shellResult : Except String String) : List String :=
  match cmd.execute, shellResult with
  | some _, Except.error stderr => ["Execution error: " ++ stderr]
  | _, _ => []

/-- Model of `makeRequest(command, variables, headers, args)` (src/index.js
lines 200-263).  `store` is the session-store file state, `httpData` the
outcome of the external `axios` call (`Except.error msg` covers transport
failures and non-2xx responses, which `axios` raises as exceptions, with
`msg` the text the catch handler logs), and `shellResult` the outcome of
the external `exec` call.  The result is `none` when `loadConfigStore`
throws on a corrupt store file (an uncaught crash in the source). -/
def makeRequest (cmd : CommandDef) (vars headers args : List (String × String))
    (store : Option String) (httpData : Except String JSVal)
    (shellResult : Except String String) : Option InvocationResult :=
  match loadConfigStore store with
  | none => none
  | some configStore =>
    let updatedVariables := objSpread vars configStore
    match cmd.endpoint with
    | some ep =>
      let scopeA := objSpread updatedVariables args
      let urlWithVars := replaceVariables ep scopeA
      let parts := splitCh ' ' urlWithVars
      let req : HttpRequest :=
        { method := parts.headD ""
          url := parts[1]?
          reqHeaders := headers.map (fun p => (p.1, replaceVariables p.2 updatedVariables))
          reqBody := cmd.body.map (fun b => replaceVariables b scopeA) }
      match httpData with
      | Except.error msg =>
        some { newStore := store, printed := execPrinted cmd shellResult,
               errors := ["Error: " ++ msg] ++ execErrors cmd shellResult,
               request := some req, shellRun := cmd.execute }
      | Except.ok data =>
        match handleResponse cmd data updatedVariables args with
        | Except.error _ =>
          some { newStore := store, printed := execPrinted cmd shellResult,
                 errors := ["Error: TypeError"] ++ execErrors cmd shellResult,
                 request := some req, shellRun := cmd.execute }
        | Except.ok pr =>
          match handleSet cmd data updatedVariables args store with
          | Except.error _ =>
            some { newStore := store, printed := pr ++ execPrinted cmd shellResult,
                   errors := ["Error: TypeError"] ++ execErrors cmd shellResult,
                   request := some req, shellRun := cmd.execute }
          | Except.ok (store2, pr2) =>
            some { newStore := store2, printed := pr ++ pr2 ++ execPrinted cmd shellResult,
                   errors := execErrors cmd shellResult,
                   request := some req, shellRun := cmd.execute }
    | none =>
      match cmd.response with
      | some rt =>
        some { newStore := store,
               printed := [replaceVariables rt (objSpread updatedVariables args)] ++
                 execPrinted cmd shellResult,
               errors := execErrors cmd shellResult,
               request := none, shellRun := cmd.execute }
      | none =>
        some { newStore := store, printed := execPrinted cmd shellResult,
               errors := execErrors cmd shellResult,
               request := none, shellRun := cmd.execute }

/-- Scan for the first closing delimiter, as the lazy regex body does:
returns the characters before the first occurrence of `cls` and the
remainder after it, failing at a newline (which the dot of the regex does
not cross) or at the end of input. -/
def grabUntil (cls : Char) : List Char → Option (List Char × List Char)
  | [] => none
  | c :: rest =>
    if c = cls then some ([], rest)
    else if c = '\n' then none
    else (grabUntil cls rest).map (consFst c)

/-- Fuel-indexed model of a global lazy delimited-token regex match (the
`cmd.match` calls of `setupCLI` for bracket and angle tokens): at each
opening delimiter the shortest run up to a closing delimiter on the same
line is captured, and scanning resumes after it.  Fuel is at least the
length of the list at every call. -/
def extractDelims (opn cls : Char) : Nat → List Char → List (List Char)
  | _, [] => []
  | 0, _ => []
  | fuel + 1, c :: rest =>
    if c = opn then
      match grabUntil cls rest with
      | some (inside, after) => inside :: extractDelims opn cls fuel after
      | none => extractDelims opn cls fuel rest
    else extractDelims opn cls fuel rest

/-- Mandatory argument names of a command-name string: the angle-bracket
tokens of `cmd.match`, with every remaining angle bracket stripped as the
`replace` cleanup does. -/
def mandatoryArgsOf (cmd : String) : List String :=
  (extractDelims '<' '>' cmd.data.length cmd.data).map
    (fun l => String.mk (l.filter (fun c => c != '<' && c != '>')))

/-- Optional argument names of a command-name string: the square-bracket
tokens of `cmd.match`, with every remaining square bracket stripped. -/
def optionalArgsOf (cmd : String) : List String :=
  (extractDelims '[' ']' cmd.data.length cmd.data).map
    (fun l => String.mk (l.filter (fun c => c != '[' && c != ']')))

/-- One parent command as registered with the CLI framework by `setupCLI`:
its name (the first whitespace token of the defining command name), the
positional arguments and options declared on it, the command definition
its action is bound to, and the subcommand name strings later registered
under it (each subcommand's action is bound to its own definition and
receives an empty argument object). -/
structure ParentReg where
  pname : String
  mandatoryArgs : List String
  optionalOpts : List String
  boundDef : CommandDef
  subs : List (String × CommandDef)
deriving DecidableEq

/-- Append a subcommand registration under the parent of the given name. -/
def addSub (acc : List ParentReg) (n : String) (s : String × CommandDef) : List ParentReg :=
  acc.map (fun p => if p.pname = n then { p with subs := p.subs ++ [s] } else p)

/-- Parent-command registration guard of `setupCLI`: when no parent of
that name is registered yet, a new parent is appended carrying the
mandatory/optional tokens of the full command name as its arguments and
options and this entry's definition bound to its action; otherwise the
accumulator is unchanged (the first definition wins). -/
def registerParent (acc : List ParentReg) (entry : String × CommandDef) : List ParentReg :=
  if acc.any (fun p => p.pname = (splitCh ' ' entry.1).headD "") then acc
  else
    acc ++ [{ pname := (splitCh ' ' entry.1).headD ""
              mandatoryArgs := mandatoryArgsOf entry.1
              optionalOpts := optionalArgsOf entry.1
              boundDef := entry.2
              subs := [] }]

/-- One iteration of the `Object.keys(config.commands).forEach` loop of
`setupCLI` (src/index.js lines 273-340): the command name is split on
spaces into a parent token and a subcommand remainder; a parent not seen
before is registered via `registerParent`; when the remainder is nonempty
it is registered verbatim as a subcommand of the parent. -/
def setupCLIStep (acc : List ParentReg) (entry : String × CommandDef) : List ParentReg :=
  if String.intercalate " " ((splitCh ' ' entry.1).drop 1) = "" then
    registerParent acc entry
  else
    addSub (registerParent acc entry) ((splitCh ' ' entry.1).headD "")
      (String.intercalate " " ((splitCh ' ' entry.1).drop 1), entry.2)

/-- Model of `setupCLI(config)` (src/index.js lines 266-343) at the
registration boundary: the list of parent commands, in registration order,
produced from the configuration's `commands` entries. -/
def setupCLI (commands : List (String × CommandDef)) : List ParentReg :=
  commands.foldl setupCLIStep []

/-- The empty character list scans to itself under any fuel. -/
theorem replaceGo_nil (vars : List (String × String)) (fuel : Nat) :
    replaceGo vars fuel [] = [] := by
  cases fuel <;> rfl

/-- The placeholder scanner does not depend on the fuel once the fuel
covers the length of the input. -/
theorem replaceGo_fuel (vars : List (String × String)) :
    ∀ f1 f2 l, l.length ≤ f1 → l.length ≤ f2 →
      replaceGo vars f1 l = replaceGo vars f2 l := by
  intro f1
  induction f1 with
  | zero =>
    intro f2 l h1 _
    have hl : l = [] := List.eq_nil_of_length_eq_zero (Nat.le_zero.mp h1)
    subst hl
    simp [replaceGo_nil]
  | succ f ih =>
    intro f2 l h1 h2
    cases l with
    | nil => simp [replaceGo_nil]
    | cons c rest =>
      cases f2 with
      | zero => simp at h2
      | succ g =>
        have hr1 : rest.length ≤ f := Nat.succ_le_succ_iff.mp h1
        have hr2 : rest.length ≤ g := Nat.succ_le_succ_iff.mp h2
        show replaceGo vars (f + 1) (c :: rest) = replaceGo vars (g + 1) (c :: rest)
        simp only [replaceGo]
        by_cases hc : c = '$'
        · simp only [hc, if_pos]
          by_cases hi : (rest.takeWhile isIdentChar).isEmpty
          · simp only [hi, if_pos, ite_true]
            rw [ih g rest hr1 hr2]
          · rw [ih g (rest.dropWhile isIdentChar)
              (Nat.le_trans (List.dropWhile_sublist isIdentChar).length_le hr1)
              (Nat.le_trans (List.dropWhile_sublist isIdentChar).length_le hr2)]
            simp [hi]
        · simp only [hc, ite_false]
          rw [ih g rest hr1 hr2]

/-- Appending strings concatenates the underlying character lists. -/
theorem strMk_append (a b : List Char) : String.mk (a ++ b) = String.mk a ++ String.mk b := rfl

/-- Boolean test that a character list does not start with a character
satisfying `p`, used as the right-boundary condition of a maximal run. -/
def boundaryOk (p : Char → Bool) : List Char → Bool
  | [] => true
  | c :: _ => !p c

/-- A maximal run followed by a boundary is taken whole by `takeWhile`. -/
theorem takeWhile_all_append (p : Char → Bool) (l1 l2 : List Char)
    (h1 : l1.all p = true) (h2 : boundaryOk p l2 = true) :
    (l1 ++ l2).takeWhile p = l1 := by
  rw [List.takeWhile_append_of_pos (by simpa [List.all_eq_true] using h1)]
  cases l2 with
  | nil => simp
  | cons c rest =>
    simp only [boundaryOk, Bool.not_eq_true'] at h2
    simp [List.takeWhile_cons, h2]

/-- A maximal run followed by a boundary is dropped whole by `dropWhile`. -/
theorem dropWhile_all_append (p : Char → Bool) (l1 l2 : List Char)
    (h1 : l1.all p = true) (h2 : boundaryOk p l2 = true) :
    (l1 ++ l2).dropWhile p = l2 := by
  rw [List.dropWhile_append_of_pos (by simpa [List.all_eq_true] using h1)]
  cases l2 with
  | nil => simp
  | cons c rest =>
    simp only [boundaryOk, Bool.not_eq_true'] at h2
    simp [List.dropWhile_cons, h2]


/-- Rebuilding a string from its characters is the identity. -/
theorem strMk_data (s : String) : String.mk s.data = s := rfl

/-- A non-dollar head character is copied verbatim by the resolver. -/
theorem replaceVariables_cons (vars : List (String × String)) (c : Char) (s : List Char)
    (hc : c ≠ '$') :
    replaceVariables (String.mk (c :: s)) vars =
      String.mk [c] ++ replaceVariables (String.mk s) vars := by
  show String.mk (replaceGo vars (s.length + 1) (c :: s)) = _
  simp only [replaceGo]
  rw [if_neg hc]
  rfl

/-- A dollar sign not followed by an identifier character is copied
verbatim by the resolver. -/
theorem replaceVariables_dollar_stop (vars : List (String × String)) (s : List Char)
    (hb : boundaryOk isIdentChar s = true) :
    replaceVariables (String.mk ('$' :: s)) vars =
      String.mk ['$'] ++ replaceVariables (String.mk s) vars := by
  have ht : s.takeWhile isIdentChar = [] := by
    cases s with
    | nil => rfl
    | cons c rest =>
      simp only [boundaryOk, Bool.not_eq_true'] at hb
      simp [List.takeWhile_cons, hb]
  show String.mk (if (s.takeWhile isIdentChar).isEmpty = true
      then '$' :: replaceGo vars s.length s
      else ((lookupVar vars (String.mk (s.takeWhile isIdentChar))).getD "").data ++
        replaceGo vars s.length (s.dropWhile isIdentChar)) = _
  rw [ht]
  rfl

/-- A dollar sign followed by a maximal nonempty identifier run is
replaced by the value bound to that identifier, or the empty string when
the identifier is unbound. -/
theorem replaceVariables_dollar_ident (vars : List (String × String)) (name s : List Char)
    (hn : name ≠ []) (ha : name.all isIdentChar = true) (hb : boundaryOk isIdentChar s = true) :
    replaceVariables (String.mk ('$' :: (name ++ s))) vars =
      ((lookupVar vars (String.mk name)).getD "") ++ replaceVariables (String.mk s) vars := by
  have ht : (name ++ s).takeWhile isIdentChar = name := takeWhile_all_append _ _ _ ha hb
  have hd : (name ++ s).dropWhile isIdentChar = s := dropWhile_all_append _ _ _ ha hb
  have hne : name.isEmpty = false := by
    cases name with
    | nil => exact absurd rfl hn
    | cons c r => rfl
  show String.mk (if ((name ++ s).takeWhile isIdentChar).isEmpty = true
      then '$' :: replaceGo vars (name ++ s).length (name ++ s)
      else ((lookupVar vars (String.mk ((name ++ s).takeWhile isIdentChar))).getD "").data ++
        replaceGo vars (name ++ s).length ((name ++ s).dropWhile isIdentChar)) = _
  rw [ht, hd, hne]
  rw [if_neg (by simp)]
  rw [replaceGo_fuel vars (name ++ s).length s.length s (by simp) (Nat.le_refl _)]
  rfl

/-- Boolean test that a character list contains no placeholder pattern: no
dollar sign immediately followed by an identifier character. -/
def noVarPattern : List Char → Bool
  | [] => true
  | [_] => true
  | c1 :: c2 :: rest => (c1 != '$' || !isIdentChar c2) && noVarPattern (c2 :: rest)

/-- On a list without placeholder patterns the scanner is the identity. -/
theorem replaceGo_stable (vars : List (String × String)) :
    ∀ l, noVarPattern l = true → replaceGo vars l.length l = l := by
  intro l
  induction l with
  | nil => intro _; exact replaceGo_nil vars 0
  | cons c rest ih =>
    intro h
    by_cases hc : c = '$'
    · subst hc
      cases rest with
      | nil =>
        show replaceGo vars 1 ['$'] = ['$']
        rfl
      | cons c2 r =>
        simp only [noVarPattern, Bool.and_eq_true, Bool.or_eq_true, bne_iff_ne, ne_eq,
          Bool.not_eq_true'] at h
        have hid : isIdentChar c2 = false := h.1.resolve_left (fun hh => hh trivial)
        have ht : (c2 :: r).takeWhile isIdentChar = [] := by
          simp [List.takeWhile_cons, hid]
        show (if ((c2 :: r).takeWhile isIdentChar).isEmpty = true
            then '$' :: replaceGo vars (c2 :: r).length (c2 :: r)
            else ((lookupVar vars (String.mk ((c2 :: r).takeWhile isIdentChar))).getD "").data ++
              replaceGo vars (c2 :: r).length ((c2 :: r).dropWhile isIdentChar)) = '$' :: c2 :: r
        rw [ht]
        show '$' :: replaceGo vars (c2 :: r).length (c2 :: r) = '$' :: c2 :: r
        rw [ih h.2]
    · have hrest : noVarPattern rest = true := by
        cases rest with
        | nil => rfl
        | cons c2 r =>
          simp only [noVarPattern, Bool.and_eq_true] at h
          exact h.2
      show replaceGo vars (rest.length + 1) (c :: rest) = c :: rest
      simp only [replaceGo]
      rw [if_neg hc, ih hrest]

/-- On a string without placeholder patterns the resolver is the
identity. -/
theorem replaceVariables_stable (s : String) (vars : List (String × String))
    (h : noVarPattern s.data = true) : replaceVariables s vars = s := by
  show String.mk (replaceGo vars s.data.length s.data) = s
  rw [replaceGo_stable vars s.data h]

/-- Escaped character list of a raw character list. -/
def escList (l : List Char) : List Char := (l.map escChar).flatten

/-- Unfolding lemma for `escList`. -/
theorem escList_cons (c : Char) (l : List Char) :
    escList (c :: l) = escChar c ++ escList l := by
  simp [escList]

/-- The escape body of a string is the escape body of its characters. -/
theorem escString_eq_escList (s : String) : escString s = escList s.data := rfl

/-- Decoding a hexadecimal digit character restores its value. -/
theorem hexVal_hexDigit : ∀ n, n < 16 → hexVal (hexDigit n) = some n := by decide

/-- Whitespace heads are dropped by `skipWs`. -/
theorem skipWs_ws (c : Char) (h : isWs c = true) (l : List Char) :
    skipWs (c :: l) = skipWs l := by
  simp [skipWs, List.dropWhile_cons, h]

/-- Non-whitespace heads stop `skipWs`. -/
theorem skipWs_not (c : Char) (h : isWs c = false) (l : List Char) :
    skipWs (c :: l) = c :: l := by
  simp [skipWs, List.dropWhile_cons, h]


/-- Decoding a `u00XX` escape with in-range digits restores the code. -/
theorem decodeEscape_u (hi lo : Nat) (h1 : hi < 16) (h2 : lo < 16) (Y : List Char) :
    decodeEscape ('u' :: '0' :: '0' :: hexDigit hi :: hexDigit lo :: Y) =
      some (Char.ofNat (hi * 16 + lo), Y) := by
  show (match hexVal '0', hexVal '0', hexVal (hexDigit hi), hexVal (hexDigit lo) with
    | some a, some b, some c2, some d =>
      some (Char.ofNat (((a * 16 + b) * 16 + c2) * 16 + d), Y)
    | _, _, _, _ => none) = some (Char.ofNat (hi * 16 + lo), Y)
  rw [hexVal_hexDigit _ h1, hexVal_hexDigit _ h2]
  show some (Char.ofNat (((0 * 16 + 0) * 16 + hi) * 16 + lo), Y) = _
  rw [show ((0 * 16 + 0) * 16 + hi) * 16 + lo = hi * 16 + lo from by omega]

/-- One scanning step of the string-body parser on a nonempty input. -/
theorem parseStrBody_step (f : Nat) (c : Char) (X : List Char) :
    parseStrBody (f + 1) (c :: X) =
      if c = '"' then some ([], X)
      else if c = '\\' then
        match decodeEscape X with
        | some (dec, rest2) => (parseStrBody f rest2).map (consFst dec)
        | none => none
      else if c.toNat < 32 then none
      else (parseStrBody f X).map (consFst c) := rfl

/-- The string-body parser inverts JSON escaping: the escaped body of any
character list followed by a closing quote parses back to that list, with
the remainder preserved, for any sufficient fuel. -/
theorem parseStrBody_esc :
    ∀ (l rest : List Char) (fuel : Nat),
      (escList l ++ '"' :: rest).length ≤ fuel →
      parseStrBody fuel (escList l ++ '"' :: rest) = some (l, rest) := by
  intro l
  induction l with
  | nil =>
    intro rest fuel hlen
    simp only [escList, List.map_nil, List.flatten_nil, List.nil_append] at hlen ⊢
    cases fuel with
    | zero => simp at hlen
    | succ f => rfl
  | cons c l2 ih =>
    intro rest fuel hlen
    rw [escList_cons, List.append_assoc] at hlen ⊢
    by_cases h1 : c = '"'
    · subst h1
      rw [show escChar '"' = ['\\', '"'] from rfl] at hlen ⊢
      simp only [List.length_append, List.length_cons] at hlen
      cases fuel with
      | zero => omega
      | succ f =>
        rw [show parseStrBody (f + 1) (['\\', '"'] ++ (escList l2 ++ '"' :: rest)) =
          (parseStrBody f (escList l2 ++ '"' :: rest)).map (consFst '"') from rfl]
        rw [ih rest f (by simp; omega)]
        rfl
    · by_cases h2 : c = '\\'
      · subst h2
        rw [show escChar '\\' = ['\\', '\\'] from rfl] at hlen ⊢
        simp only [List.length_append, List.length_cons] at hlen
        cases fuel with
        | zero => omega
        | succ f =>
          rw [show parseStrBody (f + 1) (['\\', '\\'] ++ (escList l2 ++ '"' :: rest)) =
            (parseStrBody f (escList l2 ++ '"' :: rest)).map (consFst '\\') from rfl]
          rw [ih rest f (by simp; omega)]
          rfl
      · by_cases h3 : c.toNat = 8
        · have hesc : escChar c = ['\\', 'b'] := by
            unfold escChar
            rw [if_neg h1, if_neg h2, if_pos h3]
          rw [hesc] at hlen ⊢
          simp only [List.length_append, List.length_cons] at hlen
          cases fuel with
          | zero => omega
          | succ f =>
            rw [show parseStrBody (f + 1) (['\\', 'b'] ++ (escList l2 ++ '"' :: rest)) =
              (parseStrBody f (escList l2 ++ '"' :: rest)).map (consFst (Char.ofNat 8)) from rfl]
            rw [ih rest f (by simp; omega)]
            rw [show Char.ofNat 8 = c from by rw [← h3, Char.ofNat_toNat]]
            rfl
        · by_cases h4 : c.toNat = 12
          · have hesc : escChar c = ['\\', 'f'] := by
              unfold escChar
              rw [if_neg h1, if_neg h2, if_neg h3, if_pos h4]
            rw [hesc] at hlen ⊢
            simp only [List.length_append, List.length_cons] at hlen
            cases fuel with
            | zero => omega
            | succ f =>
              rw [show parseStrBody (f + 1) (['\\', 'f'] ++ (escList l2 ++ '"' :: rest)) =
                (parseStrBody f (escList l2 ++ '"' :: rest)).map
                  (consFst (Char.ofNat 12)) from rfl]
              rw [ih rest f (by simp; omega)]
              rw [show Char.ofNat 12 = c from by rw [← h4, Char.ofNat_toNat]]
              rfl
          · by_cases h5 : c = '\n'
            · subst h5
              rw [show escChar '\n' = ['\\', 'n'] from rfl] at hlen ⊢
              simp only [List.length_append, List.length_cons] at hlen
              cases fuel with
              | zero => omega
              | succ f =>
                rw [show parseStrBody (f + 1) (['\\', 'n'] ++ (escList l2 ++ '"' :: rest)) =
                  (parseStrBody f (escList l2 ++ '"' :: rest)).map (consFst '\n') from rfl]
                rw [ih rest f (by simp; omega)]
                rfl
            · by_cases h6 : c.toNat = 13
              · have hesc : escChar c = ['\\', 'r'] := by
                  unfold escChar
                  rw [if_neg h1, if_neg h2, if_neg h3, if_neg h4, if_neg h5, if_pos h6]
                rw [hesc] at hlen ⊢
                simp only [List.length_append, List.length_cons] at hlen
                cases fuel with
                | zero => omega
                | succ f =>
                  rw [show parseStrBody (f + 1) (['\\', 'r'] ++ (escList l2 ++ '"' :: rest)) =
                    (parseStrBody f (escList l2 ++ '"' :: rest)).map
                      (consFst (Char.ofNat 13)) from rfl]
                  rw [ih rest f (by simp; omega)]
                  rw [show Char.ofNat 13 = c from by rw [← h6, Char.ofNat_toNat]]
                  rfl
              · by_cases h7 : c = '\t'
                · subst h7
                  rw [show escChar '\t' = ['\\', 't'] from rfl] at hlen ⊢
                  simp only [List.length_append, List.length_cons] at hlen
                  cases fuel with
                  | zero => omega
                  | succ f =>
                    rw [show parseStrBody (f + 1)
                        (['\\', 't'] ++ (escList l2 ++ '"' :: rest)) =
                      (parseStrBody f (escList l2 ++ '"' :: rest)).map (consFst '\t') from rfl]
                    rw [ih rest f (by simp; omega)]
                    rfl
                · by_cases h8 : c.toNat < 32
                  · have hesc : escChar c =
                        ['\\', 'u', '0', '0', hexDigit (c.toNat / 16),
                          hexDigit (c.toNat % 16)] := by
                      unfold escChar
                      rw [if_neg h1, if_neg h2, if_neg h3, if_neg h4, if_neg h5, if_neg h6,
                        if_neg h7, if_pos h8]
                    rw [hesc] at hlen ⊢
                    simp only [List.length_append, List.length_cons] at hlen
                    cases fuel with
                    | zero => omega
                    | succ f =>
                      rw [show parseStrBody (f + 1)
                          (['\\', 'u', '0', '0', hexDigit (c.toNat / 16),
                            hexDigit (c.toNat % 16)] ++ (escList l2 ++ '"' :: rest)) =
                        (match decodeEscape ('u' :: '0' :: '0' :: hexDigit (c.toNat / 16) ::
                            hexDigit (c.toNat % 16) :: (escList l2 ++ '"' :: rest)) with
                         | some (dec, rest2) => (parseStrBody f rest2).map (consFst dec)
                         | none => none) from rfl]
                      rw [decodeEscape_u _ _ (by omega) (by omega)]
                      show (parseStrBody f (escList l2 ++ '"' :: rest)).map
                        (consFst (Char.ofNat (c.toNat / 16 * 16 + c.toNat % 16))) = _
                      rw [ih rest f (by simp; omega)]
                      rw [show Char.ofNat (c.toNat / 16 * 16 + c.toNat % 16) = c from by
                        rw [show c.toNat / 16 * 16 + c.toNat % 16 = c.toNat from by omega,
                          Char.ofNat_toNat]]
                      rfl
                  · have hesc : escChar c = [c] := by
                      unfold escChar
                      rw [if_neg h1, if_neg h2, if_neg h3, if_neg h4, if_neg h5, if_neg h6,
                        if_neg h7, if_neg h8]
                    rw [hesc] at hlen ⊢
                    simp only [List.length_append, List.length_cons] at hlen
                    cases fuel with
                    | zero => omega
                    | succ f =>
                      rw [List.singleton_append, parseStrBody_step, if_neg h1, if_neg h2,
                        if_neg h8]
                      rw [ih rest f (by simp; omega)]
                      rfl

/-- Normal form of one serialized store entry followed by a tail. -/
theorem entry_norm (p : String × String) (t : List Char) :
    entryChars p ++ t = ' ' :: ' ' :: '"' ::
      (escList p.1.data ++ '"' :: ':' :: ' ' :: '"' :: (escList p.2.data ++ '"' :: t)) := by
  simp [entryChars, quoteStr, escString_eq_escList, List.append_assoc]

/-- Parsing one serialized `"key": "value"` member restores the pair. -/
theorem parseKV_quoted (k v : String) (t : List Char) :
    parseKV ('"' :: (escList k.data ++ '"' ::
        (':' :: ' ' :: '"' :: (escList v.data ++ '"' :: t)))) = some ((k, v), t) := by
  show (match parseStrBody
      (escList k.data ++ '"' :: (':' :: ' ' :: '"' :: (escList v.data ++ '"' :: t))).length
      (escList k.data ++ '"' :: (':' :: ' ' :: '"' :: (escList v.data ++ '"' :: t))) with
    | none => none
    | some (key, rest2) =>
      match skipWs rest2 with
      | ':' :: rest3 =>
        match skipWs rest3 with
        | '"' :: rest4 =>
          match parseStrBody rest4.length rest4 with
          | none => none
          | some (val, rest5) => some ((String.mk key, String.mk val), rest5)
        | _ => none
      | _ => none) = some ((k, v), t)
  rw [parseStrBody_esc k.data _ _ (Nat.le_refl _)]
  show (match skipWs (':' :: ' ' :: '"' :: (escList v.data ++ '"' :: t)) with
    | ':' :: rest3 =>
      match skipWs rest3 with
      | '"' :: rest4 =>
        match parseStrBody rest4.length rest4 with
        | none => none
        | some (val, rest5) => some ((String.mk k.data, String.mk val), rest5)
      | _ => none
    | _ => none) = some ((k, v), t)
  rw [skipWs_not ':' (by decide)]
  show (match skipWs (' ' :: '"' :: (escList v.data ++ '"' :: t)) with
    | '"' :: rest4 =>
      match parseStrBody rest4.length rest4 with
      | none => none
      | some (val, rest5) => some ((String.mk k.data, String.mk val), rest5)
    | _ => none) = some ((k, v), t)
  rw [skipWs_ws ' ' (by decide), skipWs_not '"' (by decide)]
  show (match parseStrBody (escList v.data ++ '"' :: t).length (escList v.data ++ '"' :: t) with
    | none => none
    | some (val, rest5) => some ((String.mk k.data, String.mk val), rest5)) = some ((k, v), t)
  rw [parseStrBody_esc v.data _ _ (Nat.le_refl _)]

/-- One scanning step of the member-sequence parser. -/
theorem parseEntries_step (f : Nat) (l : List Char) :
    parseEntries (f + 1) l =
      match parseKV l with
      | none => none
      | some (kv, rest5) =>
        match skipWs rest5 with
        | ',' :: rest6 =>
          match parseEntries f (skipWs rest6) with
          | some (entries, rest7) => some (kv :: entries, rest7)
          | none => none
        | c :: rest6 => if c = rbrace then some ([kv], rest6) else none
        | [] => none := rfl

/-- Parsing the serialized members of a nonempty mapping, starting after
the indentation of the first member, restores the mapping and consumes the
closing brace. -/
theorem parseEntries_join :
    ∀ (m : List (String × String)) (fuel : Nat), m ≠ [] → m.length ≤ fuel →
      parseEntries fuel (skipWs (joinEntries m ++ ['\n', rbrace])) = some (m, []) := by
  intro m
  induction m with
  | nil => intro fuel h _; exact absurd rfl h
  | cons p rest ih =>
    intro fuel _ hlen
    cases fuel with
    | zero => simp at hlen
    | succ f =>
      cases rest with
      | nil =>
        rw [show joinEntries [p] = entryChars p from rfl]
        rw [entry_norm]
        rw [skipWs_ws ' ' (by decide), skipWs_ws ' ' (by decide), skipWs_not '"' (by decide)]
        rw [parseEntries_step, parseKV_quoted]
        show (match skipWs ['\n', rbrace] with
          | ',' :: rest6 =>
            match parseEntries f (skipWs rest6) with
            | some (entries, rest7) => some ((p.1, p.2) :: entries, rest7)
            | none => none
          | c :: rest6 => if c = rbrace then some ([(p.1, p.2)], rest6) else none
          | [] => none) = some ([p], [])
        rw [skipWs_ws '\n' (by decide), skipWs_not rbrace (by decide)]
        rfl
      | cons q rest2 =>
        rw [show joinEntries (p :: q :: rest2) =
          entryChars p ++ ',' :: '\n' :: joinEntries (q :: rest2) from rfl]
        rw [List.append_assoc, List.cons_append, List.cons_append]
        rw [entry_norm]
        rw [skipWs_ws ' ' (by decide), skipWs_ws ' ' (by decide), skipWs_not '"' (by decide)]
        rw [parseEntries_step, parseKV_quoted]
        show (match skipWs (',' :: '\n' :: (joinEntries (q :: rest2) ++ ['\n', rbrace])) with
          | ',' :: rest6 =>
            match parseEntries f (skipWs rest6) with
            | some (entries, rest7) => some ((p.1, p.2) :: entries, rest7)
            | none => none
          | c :: rest6 => if c = rbrace then some ([(p.1, p.2)], rest6) else none
          | [] => none) = some (p :: q :: rest2, [])
        rw [skipWs_not ',' (by decide)]
        show (match parseEntries f
            (skipWs ('\n' :: (joinEntries (q :: rest2) ++ ['\n', rbrace]))) with
          | some (entries, rest7) => some ((p.1, p.2) :: entries, rest7)
          | none => none) = some (p :: q :: rest2, [])
        rw [skipWs_ws '\n' (by decide)]
        rw [ih f (by simp) (by simp at hlen ⊢; omega)]

/-- The serialized text of a nonempty mapping is at least as long, after
leading whitespace, as the mapping has members. -/
theorem length_le_skipWs_join :
    ∀ (m : List (String × String)) (t : List Char), m ≠ [] →
      m.length ≤ (skipWs (joinEntries m ++ t)).length := by
  intro m
  induction m with
  | nil => intro t h; exact absurd rfl h
  | cons p rest ih =>
    intro t _
    cases rest with
    | nil =>
      rw [show joinEntries [p] = entryChars p from rfl, entry_norm]
      rw [skipWs_ws ' ' (by decide), skipWs_ws ' ' (by decide), skipWs_not '"' (by decide)]
      simp
    | cons q rest2 =>
      rw [show joinEntries (p :: q :: rest2) =
        entryChars p ++ ',' :: '\n' :: joinEntries (q :: rest2) from rfl]
      rw [List.append_assoc, List.cons_append, List.cons_append]
      rw [entry_norm]
      rw [skipWs_ws ' ' (by decide), skipWs_ws ' ' (by decide), skipWs_not '"' (by decide)]
      have h1 := ih (t) (by simp)
      have h2 : (skipWs (joinEntries (q :: rest2) ++ t)).length ≤
          (joinEntries (q :: rest2) ++ t).length :=
        (List.dropWhile_sublist isWs).length_le
      simp only [List.length_cons, List.length_append] at h1 h2 ⊢
      omega

/-- Round trip of the session-store codec: the exact text written by the
store serializer parses back to the same mapping. -/
theorem store_roundtrip (m : List (String × String)) :
    parseStore (stringifyStore m) = some m := by
  cases m with
  | nil => rfl
  | cons p rest =>
    show (match skipWs (joinEntries (p :: rest) ++ ['\n', rbrace]) with
      | c2 :: rest2 =>
        if c2 = rbrace then (if (skipWs rest2).isEmpty then some [] else none)
        else
          match parseEntries (c2 :: rest2).length (c2 :: rest2) with
          | some (entries, rest3) => if (skipWs rest3).isEmpty then some entries else none
          | none => none
      | [] => none) = some (p :: rest)
    cases rest with
    | nil =>
      have hsk : skipWs (joinEntries [p] ++ ['\n', rbrace]) = '"' ::
          (escList p.1.data ++ '"' :: ':' :: ' ' :: '"' ::
            (escList p.2.data ++ '"' :: ['\n', rbrace])) := by
        rw [show joinEntries [p] = entryChars p from rfl, entry_norm]
        rw [skipWs_ws ' ' (by decide), skipWs_ws ' ' (by decide), skipWs_not '"' (by decide)]
      rw [hsk]
      show (if ('"' : Char) = rbrace then
          (if (skipWs (escList p.1.data ++ '"' :: ':' :: ' ' :: '"' ::
            (escList p.2.data ++ '"' :: ['\n', rbrace]))).isEmpty then some [] else none)
        else
          match parseEntries ('"' :: (escList p.1.data ++ '"' :: ':' :: ' ' :: '"' ::
              (escList p.2.data ++ '"' :: ['\n', rbrace]))).length
              ('"' :: (escList p.1.data ++ '"' :: ':' :: ' ' :: '"' ::
              (escList p.2.data ++ '"' :: ['\n', rbrace]))) with
          | some (entries, rest3) => if (skipWs rest3).isEmpty then some entries else none
          | none => none) = some [p]
      rw [if_neg (by decide)]
      rw [← hsk]
      rw [parseEntries_join [p] _ (by simp) (length_le_skipWs_join [p] _ (by simp))]
      rfl
    | cons q rest2 =>
      have hsk : skipWs (joinEntries (p :: q :: rest2) ++ ['\n', rbrace]) = '"' ::
          (escList p.1.data ++ '"' :: ':' :: ' ' :: '"' ::
            (escList p.2.data ++ '"' ::
              (',' :: '\n' :: (joinEntries (q :: rest2) ++ ['\n', rbrace])))) := by
        rw [show joinEntries (p :: q :: rest2) =
          entryChars p ++ ',' :: '\n' :: joinEntries (q :: rest2) from rfl]
        rw [List.append_assoc, List.cons_append, List.cons_append]
        rw [entry_norm]
        rw [skipWs_ws ' ' (by decide), skipWs_ws ' ' (by decide), skipWs_not '"' (by decide)]
      rw [hsk]
      show (if ('"' : Char) = rbrace then
          (if (skipWs (escList p.1.data ++ '"' :: ':' :: ' ' :: '"' ::
            (escList p.2.data ++ '"' ::
              (',' :: '\n' :: (joinEntries (q :: rest2) ++ ['\n', rbrace]))))).isEmpty
            then some [] else none)
        else
          match parseEntries ('"' :: (escList p.1.data ++ '"' :: ':' :: ' ' :: '"' ::
              (escList p.2.data ++ '"' ::
              (',' :: '\n' :: (joinEntries (q :: rest2) ++ ['\n', rbrace]))))).length
              ('"' :: (escList p.1.data ++ '"' :: ':' :: ' ' :: '"' ::
              (escList p.2.data ++ '"' ::
              (',' :: '\n' :: (joinEntries (q :: rest2) ++ ['\n', rbrace]))))) with
          | some (entries, rest3) => if (skipWs rest3).isEmpty then some entries else none
          | none => none) = some (p :: q :: rest2)
      rw [if_neg (by decide)]
      rw [← hsk]
      rw [parseEntries_join (p :: q :: rest2) _ (by simp)
        (length_le_skipWs_join (p :: q :: rest2) _ (by simp))]
      rfl

/-- Subcommand registration does not change the list of parent names. -/
theorem addSub_names (acc : List ParentReg) (n : String) (s : String × CommandDef) :
    (addSub acc n s).map (fun p => p.pname) = acc.map (fun p => p.pname) := by
  induction acc with
  | nil => rfl
  | cons a rest ih =>
    show ((if a.pname = n then { a with subs := a.subs ++ [s] } else a) ::
      addSub rest n s).map (fun p => p.pname) = _
    by_cases h : a.pname = n
    · simp only [if_pos h, List.map_cons, ih]
    · simp only [if_neg h, List.map_cons, ih]

/-- Parent registration preserves distinctness of parent names. -/
theorem registerParent_nodup (acc : List ParentReg) (entry : String × CommandDef)
    (h : (acc.map (fun p => p.pname)).Nodup) :
    ((registerParent acc entry).map (fun p => p.pname)).Nodup := by
  unfold registerParent
  by_cases hany : acc.any (fun p => p.pname = (splitCh ' ' entry.1).headD "")
  · rw [if_pos hany]; exact h
  · rw [if_neg hany, List.map_append]
    simp only [List.map_cons, List.map_nil, List.nodup_append]
    refine ⟨h, List.nodup_singleton _, ?_⟩
    intro x hx hx2
    simp only [List.mem_singleton] at hx2
    subst hx2
    rcases List.mem_map.mp hx with ⟨p, hp, hpn⟩
    have := List.any_eq_true.not.mp hany
    push_neg at this
    exact absurd (by simpa [hpn] using (rfl : (splitCh ' ' entry.1).headD "" =
      (splitCh ' ' entry.1).headD "")) (by simpa [hpn] using this p hp)

/-- One registration step preserves distinctness of parent names. -/
theorem setupCLIStep_nodup (acc : List ParentReg) (entry : String × CommandDef)
    (h : (acc.map (fun p => p.pname)).Nodup) :
    ((setupCLIStep acc entry).map (fun p => p.pname)).Nodup := by
  unfold setupCLIStep
  by_cases hsub : String.intercalate " " ((splitCh ' ' entry.1).drop 1) = ""
  · rw [if_pos hsub]; exact registerParent_nodup acc entry h
  · rw [if_neg hsub, addSub_names]; exact registerParent_nodup acc entry h

/-- Folding registration steps preserves distinctness of parent names. -/
theorem setupCLI_fold_nodup :
    ∀ (cmds : List (String × CommandDef)) (acc : List ParentReg),
      (acc.map (fun p => p.pname)).Nodup →
      ((cmds.foldl setupCLIStep acc).map (fun p => p.pname)).Nodup := by
  intro cmds
  induction cmds with
  | nil => intro acc h; exact h
  | cons e rest ih =>
    intro acc h
    exact ih (setupCLIStep acc e) (setupCLIStep_nodup acc e h)

/-- C2: contrary to the claim that the Path Extractor returns absent and
never throws when a segment is missing partway, the code throws a
`TypeError` (modelled as `Except.error ()`) whenever the walk reaches
`undefined` or `null` with a segment still to process, because the
hyphen-stripped fallback read `acc[part]` is not guarded; only a miss at
the final segment yields absent.  Evaluations at failing inputs: the empty
object with path "a.b", and a null field with path "a.b". -/
theorem c2_path_extractor_throws :
    getNestedProperty (JSVal.vobj []) "a.b" = Except.error () ∧
    getNestedProperty (JSVal.vobj [("a", JSVal.vnull)]) "a.b" = Except.error () ∧
    getNestedProperty (JSVal.vobj []) "a" = Except.ok JSVal.vundef :=
  ⟨rfl, rfl, rfl⟩

/-- C3 counterexample: on the root with the single key "user-id", the path
"userid" yields absent (`undefined`), not "x" as the claim states — the
hyphen-stripping fallback rewrites the path segment, not the object
keys. -/
theorem c3_counterexample :
    getNestedProperty (JSVal.vobj [("user-id", JSVal.vstr "x")]) "userid" =
      Except.ok JSVal.vundef ∧
    (Except.ok JSVal.vundef : Except Unit JSVal) ≠ Except.ok (JSVal.vstr "x") :=
  ⟨rfl, fun h => by injection h with h2; exact JSVal.noConfusion h2⟩

/-- C3 amended: the Path Extractor first tries the exact segment key and
descends on a hit, otherwise retries with hyphens stripped from the
segment; so "user-id" on root with key "user-id" returns "x", "user-id" on
root with key "userid" also returns "x" (the fallback tolerates hyphenated
path segments addressing unhyphenated keys, not the converse), "userid" on
root with key "user-id" returns absent, and in general one step on an
object root looks up the exact segment first and the stripped segment on a
miss. -/
theorem c3_amended :
    getNestedProperty (JSVal.vobj [("user-id", JSVal.vstr "x")]) "user-id" =
      Except.ok (JSVal.vstr "x") ∧
    getNestedProperty (JSVal.vobj [("userid", JSVal.vstr "x")]) "user-id" =
      Except.ok (JSVal.vstr "x") ∧
    getNestedProperty (JSVal.vobj [("user-id", JSVal.vstr "x")]) "userid" =
      Except.ok JSVal.vundef ∧
    (∀ (fields : List (String × JSVal)) (part : String),
      nestedStep (JSVal.vobj fields) part =
        Except.ok (if (jsLookup fields part).isUndef then jsLookup fields (stripHyphens part)
          else jsLookup fields part)) := by
  refine ⟨rfl, rfl, rfl, ?_⟩
  intro fields part
  show (if (jsLookup fields part).isUndef = true
      then jsIndex (JSVal.vobj fields) (stripHyphens part)
      else Except.ok (jsLookup fields part)) = _
  by_cases h : (jsLookup fields part).isUndef
  · rw [if_pos h, if_pos h]; rfl
  · rw [if_neg h, if_neg h]

/-- C6: the Placeholder Resolver replaces every occurrence of a dollar
sign followed by a maximal nonempty run of letters/underscores with the
value bound to that identifier in the mapping (the empty string when the
identifier is absent), and copies every other character verbatim; the four
conjuncts characterize the scanner on the empty string, on a non-dollar
head, on a dollar sign not starting a placeholder, and on a placeholder
occurrence. -/
theorem c6_replaceVariables_contract (vars : List (String × String)) :
    replaceVariables "" vars = "" ∧
    (∀ (c : Char) (s : List Char), c ≠ '$' →
      replaceVariables (String.mk (c :: s)) vars =
        String.mk [c] ++ replaceVariables (String.mk s) vars) ∧
    (∀ s : List Char, boundaryOk isIdentChar s = true →
      replaceVariables (String.mk ('$' :: s)) vars =
        String.mk ['$'] ++ replaceVariables (String.mk s) vars) ∧
    (∀ (name s : List Char), name ≠ [] → name.all isIdentChar = true →
      boundaryOk isIdentChar s = true →
      replaceVariables (String.mk ('$' :: (name ++ s))) vars =
        ((lookupVar vars (String.mk name)).getD "") ++ replaceVariables (String.mk s) vars) :=
  ⟨rfl, replaceVariables_cons vars, replaceVariables_dollar_stop vars,
    replaceVariables_dollar_ident vars⟩

/-- C6 witness: the placeholder conjunct applied at the template made of
`$name` followed by `!` under the mapping binding name to World, together
with concrete evaluations of full templates. -/
theorem c6_witness :
    replaceVariables (String.mk ('$' :: ("name".data ++ "!".data))) [("name", "World")] =
      ((lookupVar [("name", "World")] (String.mk "name".data)).getD "") ++
        replaceVariables (String.mk "!".data) [("name", "World")] ∧
    replaceVariables "Hello $name!" [("name", "World")] = "Hello World!" ∧
    replaceVariables "$missing!" [("name", "World")] = "!" :=
  ⟨(c6_replaceVariables_contract [("name", "World")]).2.2.2 "name".data "!".data
      (by decide) (by decide) (by decide),
    by decide, by decide⟩

/-- C7 counterexample: resolving is not idempotent — with the scope
binding a to the text `$b` and b to z, resolving the template `$a` once
gives `$b`, and resolving the already-resolved string again gives z. -/
theorem c7_counterexample :
    replaceVariables (replaceVariables "$a" [("a", "$b"), ("b", "z")]) [("a", "$b"), ("b", "z")] ≠
      replaceVariables "$a" [("a", "$b"), ("b", "z")] := by decide

/-- C7 amended: resolution is a pure function of the template and scope,
and re-resolving the resolved string changes nothing provided the resolved
string contains no remaining placeholder pattern (no dollar sign directly
followed by a letter or underscore) — in particular substituted values
must not introduce new placeholders, which the counterexample's `$b` value
does. -/
theorem c7_amended_idempotent (T : String) (S : List (String × String))
    (h : noVarPattern (replaceVariables T S).data = true) :
    replaceVariables (replaceVariables T S) S = replaceVariables T S :=
  replaceVariables_stable _ S h

/-- C7 witness: the amended idempotence applied at a concrete template and
scope whose resolved form has no placeholder pattern left. -/
theorem c7_witness :
    noVarPattern (replaceVariables "$a!" [("a", "x")]).data = true ∧
    replaceVariables (replaceVariables "$a!" [("a", "x")]) [("a", "x")] =
      replaceVariables "$a!" [("a", "x")] :=
  ⟨by decide, c7_amended_idempotent "$a!" [("a", "x")] (by decide)⟩

/-- C9: the Session Store round-trips — saving any mapping and loading
returns an equal mapping (the save is a full overwrite whose result does
not depend on the previous file state), and loading when no store file
exists returns the empty mapping rather than failing. -/
theorem c9_store_contract :
    (∀ m : List (String × String), loadConfigStore (saveConfigStore m) = some m) ∧
    loadConfigStore none = some [] :=
  ⟨fun m => store_roundtrip m, rfl⟩

/-- Without an `execute` field the shell callback prints nothing. -/
theorem execPrinted_none (cmd : CommandDef) (sh : Except String String)
    (h : cmd.execute = none) : execPrinted cmd sh = [] := by
  unfold execPrinted
  rw [h]

/-- Without an `execute` field the shell callback reports no error. -/
theorem execErrors_none (cmd : CommandDef) (sh : Except String String)
    (h : cmd.execute = none) : execErrors cmd sh = [] := by
  unfold execErrors
  rw [h]

/-- C10: when the HTTP call fails (transport error or non-2xx response,
both surfaced by the transport as an exception), the session-store file is
left exactly as it was — `saveConfigStore` only runs on the success path,
so even a command with a `set` clause writes nothing on the error path. -/
theorem c10_error_preserves_store (cmd : CommandDef) (ep : String)
    (vars headers args : List (String × String)) (store : Option String)
    (cs : List (String × String)) (msg : String) (sh : Except String String)
    (hload : loadConfigStore store = some cs) (hep : cmd.endpoint = some ep) :
    (makeRequest cmd vars headers args store (Except.error msg) sh).map
      (fun r => r.newStore) = some store := by
  simp only [makeRequest, hload, hep]
  rfl

/-- C10 witness: a command carrying a `set` clause invoked against an
existing store with a failing response leaves the store text unchanged. -/
theorem c10_witness :
    (makeRequest
        { endpoint := some "POST http://h/login", set := some [("token", "$data.token")] }
        [] [] [] (some (stringifyStore [("a", "b")])) (Except.error "401")
        (Except.ok "")).map (fun r => r.newStore) =
      some (some (stringifyStore [("a", "b")])) :=
  c10_error_preserves_store
    { endpoint := some "POST http://h/login", set := some [("token", "$data.token")] }
    "POST http://h/login" [] [] [] (some (stringifyStore [("a", "b")])) [("a", "b")]
    "401" (Except.ok "") (by decide) rfl

/-- C8: a command definition without `endpoint` but with a `response`
template resolves the template against the scope (static variables
overlaid with the loaded store and the per-invocation arguments), prints
it, and issues no HTTP request. -/
theorem c8_response_without_endpoint (cmd : CommandDef) (rt : String)
    (vars headers args : List (String × String)) (store : Option String)
    (cs : List (String × String)) (http : Except String JSVal) (sh : Except String String)
    (hload : loadConfigStore store = some cs) (hep : cmd.endpoint = none)
    (hresp : cmd.response = some rt) (hexec : cmd.execute = none) :
    makeRequest cmd vars headers args store http sh =
      some { newStore := store,
             printed := [replaceVariables rt (objSpread (objSpread vars cs) args)],
             errors := [], request := none, shellRun := none } := by
  simp only [makeRequest, hload, hep, hresp, hexec,
    execPrinted_none cmd sh hexec, execErrors_none cmd sh hexec, List.append_nil]

/-- C8 witness: the Hello scenario — no endpoint, response template
`Hello $name`, argument binding name to World — prints Hello World and
makes no request. -/
theorem c8_witness :
    makeRequest { response := some "Hello $name" } [] [] [("name", "World")] none
        (Except.ok (JSVal.vobj [])) (Except.ok "") =
      some { newStore := none, printed := ["Hello World"], errors := [],
             request := none, shellRun := none } :=
  (c8_response_without_endpoint { response := some "Hello $name" } "Hello $name"
    [] [] [("name", "World")] none [] (Except.ok (JSVal.vobj [])) (Except.ok "")
    rfl rfl rfl rfl).trans (by decide)

/-- C5 counterexample: the string handed to the shell is the raw
`execute` field, not its resolution through the Placeholder Resolver — for
the template `echo $name` under a scope binding name to x the shell runs
`echo $name`, while the resolved form would be `echo x`. -/
theorem c5_counterexample :
    (makeRequest { execute := some "echo $name" } [("name", "x")] [] [] none
        (Except.ok (JSVal.vobj [])) (Except.ok "ok")).map (fun r => r.shellRun) =
      some (some "echo $name") ∧
    replaceVariables "echo $name" [("name", "x")] = "echo x" ∧
    "echo $name" ≠ "echo x" :=
  ⟨by decide, by decide, by decide⟩

/-- C5 amended: the `execute` string is run as-is as a local shell command
(no placeholder resolution); on shell failure the error stream is reported
and nothing of that branch is printed; on success the trimmed standard
output is displayed.  Stated for a definition with only an `execute`
field active, so the invocation's whole output is the shell branch's. -/
theorem c5_amended_execute (cmd : CommandDef) (e : String)
    (vars headers args : List (String × String)) (store : Option String)
    (cs : List (String × String)) (http : Except String JSVal) (stdout stderr : String)
    (hload : loadConfigStore store = some cs) (hexec : cmd.execute = some e)
    (hep : cmd.endpoint = none) (hresp : cmd.response = none) :
    makeRequest cmd vars headers args store http (Except.ok stdout) =
      some { newStore := store, printed := [jsTrim stdout], errors := [],
             request := none, shellRun := some e } ∧
    makeRequest cmd vars headers args store http (Except.error stderr) =
      some { newStore := store, printed := [], errors := ["Execution error: " ++ stderr],
             request := none, shellRun := some e } := by
  constructor <;>
    simp only [makeRequest, hload, hep, hresp, hexec, execPrinted, execErrors]

/-- C5 witness: the amended statement at a concrete definition, scope and
shell outcome, together with evaluated outputs. -/
theorem c5_witness :
    makeRequest { execute := some "echo $name" } [("name", "x")] [] [] none
        (Except.ok (JSVal.vobj [])) (Except.ok "hi there ") =
      some { newStore := none, printed := [jsTrim "hi there "], errors := [],
             request := none, shellRun := some "echo $name" } ∧
    jsTrim "hi there " = "hi there" :=
  ⟨(c5_amended_execute { execute := some "echo $name" } "echo $name" [("name", "x")] [] []
      none [] (Except.ok (JSVal.vobj [])) "hi there " "boom" rfl rfl rfl rfl).1,
    by decide⟩

/-- C1: for a command with a `set` clause, after a successful response
each declared variable's template has its `$data.` tokens replaced by the
raw (untruncated, unformatted) extracted value, is resolved by the
Placeholder Resolver, and is written into the scope (third conjunct); the
entire updated scope is then persisted by `saveConfigStore` as the new
store file (first conjunct), reloading that file restores exactly the
persisted scope (second conjunct), and a subsequent invocation against the
persisted store resolves header templates such as `$token` from it
(fourth conjunct). -/
theorem c1_set_persists (cmd : CommandDef) (ep : String)
    (entries : List (String × String)) (vars headers args : List (String × String))
    (store : Option String) (cs : List (String × String)) (data : JSVal)
    (sh : Except String String) (pr : List String) (vars2 : List (String × String))
    (hload : loadConfigStore store = some cs) (hep : cmd.endpoint = some ep)
    (hset : cmd.set = some entries)
    (hresp : handleResponse cmd data (objSpread vars cs) args = Except.ok pr)
    (hrun : runSets entries data (objSpread vars cs) args = Except.ok vars2) :
    (makeRequest cmd vars headers args store (Except.ok data) sh).map (fun r => r.newStore) =
      some (some (stringifyStore vars2)) ∧
    loadConfigStore (some (stringifyStore vars2)) = some vars2 ∧
    (∀ (key tmpl v : String) (rest scope : List (String × String)),
      replaceDataRaw data tmpl = Except.ok v →
      runSets ((key, tmpl) :: rest) data scope args =
        runSets rest data (objSet scope key (replaceVariables v (objSpread scope args))) args) ∧
    (∀ (cmd2 : CommandDef) (ep2 hk hv : String) (vars0 args2 : List (String × String))
        (http2 : Except String JSVal) (sh2 : Except String String),
      cmd2.endpoint = some ep2 →
      (makeRequest cmd2 vars0 [(hk, hv)] args2 (some (stringifyStore vars2)) http2 sh2).map
          (fun r => r.request.map (fun q => q.reqHeaders)) =
        some (some [(hk, replaceVariables hv (objSpread vars0 vars2))])) := by
  refine ⟨?_, store_roundtrip vars2, ?_, ?_⟩
  · simp only [makeRequest, hload, hep, hresp, handleSet, hset, hrun, saveConfigStore]
    rfl
  · intro key tmpl v rest scope h
    simp only [runSets, h]
  · intro cmd2 ep2 hk hv vars0 args2 http2 sh2 hep2
    have hload2 : loadConfigStore (some (stringifyStore vars2)) = some vars2 :=
      store_roundtrip vars2
    simp only [makeRequest, hload2, hep2]
    split
    · rfl
    · split
      · rfl
      · split
        · rfl
        · rfl

/-- C1 witness: the login scenario — command `login` with
`set: token = $data.token` run with a mocked response body binding token
to abc123 persists a store from which token reloads as abc123, and a
subsequent invocation with the header template `Bearer $token` resolves
the stored token into the request headers. -/
theorem c1_witness :
    (makeRequest
        { endpoint := some "POST http://h/login", set := some [("token", "$data.token")] }
        [] [] [("user", "alice"), ("pass", "pw")] none
        (Except.ok (JSVal.vobj [("token", JSVal.vstr "abc123")]))
        (Except.ok "")).map (fun r => r.newStore) =
      some (some (stringifyStore [("token", "abc123")])) ∧
    loadConfigStore (some (stringifyStore [("token", "abc123")])) =
      some [("token", "abc123")] ∧
    (makeRequest { endpoint := some "GET http://h/me" } []
        [("Authorization", "Bearer $token")] []
        (some (stringifyStore [("token", "abc123")]))
        (Except.ok (JSVal.vobj [])) (Except.ok "")).map
        (fun r => r.request.map (fun q => q.reqHeaders)) =
      some (some [("Authorization", "Bearer abc123")]) :=
  ⟨(c1_set_persists
      { endpoint := some "POST http://h/login", set := some [("token", "$data.token")] }
      "POST http://h/login" [("token", "$data.token")] [] []
      [("user", "alice"), ("pass", "pw")] none [] (JSVal.vobj [("token", JSVal.vstr "abc123")])
      (Except.ok "") [] [("token", "abc123")] rfl rfl rfl rfl rfl).1,
    by decide, by decide⟩

/-- C4 counterexample: with the definition order `get list` before
`get <id>`, the single registered parent `get` has no mandatory arguments
at all — the claimed outcome (parent argument `<id>`) does not hold
regardless of order, because the parent's arguments come from whichever
definition with that parent token appears first. -/
theorem c4_counterexample :
    (setupCLI [("get list", ({} : CommandDef)), ("get <id>", {})]).map
      (fun p => (p.pname, p.mandatoryArgs)) = [("get", [])] ∧
    [("get", ([] : List String))] ≠ [("get", ["id"])] :=
  ⟨by decide, by decide⟩

/-- C4 amended: two command names sharing a parent token register exactly
one parent command (parent names stay distinct for every configuration,
second conjunct).  The parent's arguments come from the first-appearing
definition: with `get <id>` first, the parent `get` carries the mandatory
argument `id` and no options, its action is bound to the first
definition, and the later `get list` entry registers as the nested
subcommand `list` with no arguments of its own — alongside a subcommand
literally named `<id>` that the first entry's non-parent remainder also
registers (first conjunct).  With the opposite order the parent has no
arguments. -/
theorem c4_amended :
    setupCLI [("get <id>", ({} : CommandDef)), ("get list", {})] =
      [{ pname := "get", mandatoryArgs := ["id"], optionalOpts := [],
         boundDef := {}, subs := [("<id>", {}), ("list", {})] }] ∧
    (∀ cmds : List (String × CommandDef),
      ((setupCLI cmds).map (fun p => p.pname)).Nodup) :=
  ⟨by decide, fun cmds => setupCLI_fold_nodup cmds [] List.nodup_nil⟩
